import Mathlib

/-!
Shallow embedding of the data pipeline in `helpers.py` of the
Yield-Curve-vs-Market repository: the disk cache (`load_or_download`),
interval extraction (`get_recession_periods`, `get_inversion_periods`),
monthly resampling and percent change, the World-Bank/Yahoo-Finance
splice (`load_gold_silver_data`), the recession loader
(`load_recession_data`), and the merge step of `load_all_data`.

Dates are natural numbers: days for interval extraction (the 45-day gap
tolerance), month indices for monthly series; a daily observation
carries a (month, day-of-month) pair.  A missing value (pandas NaN, or
a date absent from the index) is `Option.none`; numeric values are
rationals.  Remote fetches are capabilities returning `Except`.
-/

namespace YieldCurve

/-- A monthly series: (date, value) entries; `none` is a missing value (NaN). -/
abbrev Series := List (Nat × Option ℚ)

/-- A daily series: ((month, day), value) observations, ordered by date. -/
abbrev DailySeries := List ((Nat × Nat) × ℚ)

/-- Value of a series at a date: `none` when the date is absent from the
index or the stored value is missing. -/
def lookupDate (s : Series) (d : Nat) : Option ℚ :=
  match s.find? (fun q => q.1 == d) with
  | some q => q.2
  | none => none

/-- The cache directory: one entry per cache-file name (`helpers.py` keeps
one pickle file per key under `data_cache`). -/
abbrev Cache (α : Type) := List (String × α)

/-- Payload stored under a key, if any. -/
def lookupKey {α : Type} (c : Cache α) (k : String) : Option α :=
  match c.find? (fun e => e.1 == k) with
  | some e => some e.2
  | none => none

/-- Result of one `load_or_download` call: the returned payload or the
propagated download failure, the cache afterwards, and whether the
download function was invoked. -/
structure LodResult (ε α : Type) where
  result : Except ε α
  cache : Cache α
  invoked : Bool

/-- The function `load_or_download` (helpers.py lines 20-33): return the
cached payload when the key is present, without invoking the download
function; otherwise invoke it, persist a successful result under the key,
and return it.  A download failure propagates and writes nothing. -/
def load_or_download {ε α : Type} (cache : Cache α) (key : String)
    (download : Unit → Except ε α) : LodResult ε α :=
  match lookupKey cache key with
  | some v => ⟨.ok v, cache, false⟩
  | none =>
    match download () with
    | .ok d => ⟨.ok d, (key, d) :: cache, true⟩
    | .error e => ⟨.error e, cache, true⟩

/-! Interval extraction (`get_recession_periods`, `get_inversion_periods`,
helpers.py lines 36-72).  The code computes `diff() > Timedelta(days=45)`
on the selected dates (the first diff is NaT, which compares false), takes
the cumulative sum as group ids, and emits (first, last) per group id. -/

/-- Gap flags of a date list relative to a previous date: flag is true when
the day gap to the previous date strictly exceeds the tolerance. -/
def gapFlagsFrom (tol : Nat) : Nat → List Nat → List Bool
  | _, [] => []
  | prev, d :: ds => decide (tol < d - prev) :: gapFlagsFrom tol d ds

/-- Cumulative sum of boolean flags starting from an accumulator. -/
def cumsumBools (acc : Nat) : List Bool → List Nat
  | [] => []
  | b :: bs => (if b then acc + 1 else acc) :: cumsumBools (if b then acc + 1 else acc) bs

/-- Distinct values in order of first appearance (`Series.unique()`). -/
def uniqueInOrder : List Nat → List Nat
  | [] => []
  | x :: xs => x :: uniqueInOrder (xs.filter (fun y => y != x))
termination_by l => l.length
decreasing_by
  simp only [List.length_cons]
  exact Nat.lt_succ_of_le (List.length_filter_le _ _)

/-- For each distinct group id, the (first date, last date) of its group. -/
def groupBounds (pairs : List (Nat × Nat)) : List (Nat × Nat) :=
  (uniqueInOrder (pairs.map (fun p => p.2))).map (fun g =>
    (((pairs.filter (fun p => p.2 == g)).map (fun p => p.1)).headD 0,
     ((pairs.filter (fun p => p.2 == g)).map (fun p => p.1)).getLastD 0))

/-- The cumulative-sum grouping of the source: gap flags, cumulative sum as
group ids, then per-group (first, last). -/
def extractPeriods (tol : Nat) (dates : List Nat) : List (Nat × Nat) :=
  match dates with
  | [] => []
  | d :: ds => groupBounds (dates.zip (0 :: cumsumBools 0 (gapFlagsFrom tol d ds)))

/-- Dates of a single-column frame where the predicate holds on the value. -/
def selectDates (pred : Option ℚ → Bool) (df : List (Nat × Option ℚ)) : List Nat :=
  (df.filter (fun q => pred q.2)).map (fun q => q.1)

/-- The function `get_recession_periods` (lines 36-54): `[]` when the frame
has no `Recession` column (`hasRecCol`), else the 45-day-tolerance periods
of the dates whose recession value equals 1. -/
def get_recession_periods (hasRecCol : Bool) (df : List (Nat × Option ℚ)) : List (Nat × Nat) :=
  if hasRecCol then extractPeriods 45 (selectDates (fun v => v == some 1) df) else []

/-- The function `get_inversion_periods` (lines 57-72): periods of the dates
whose spread value is strictly negative (NaN compares false). -/
def get_inversion_periods (df : List (Nat × Option ℚ)) : List (Nat × Nat) :=
  extractPeriods 45 (selectDates (fun v => match v with | some x => decide (x < 0) | none => false) df)

/-! Specification-side scan for interval extraction, transcribing the
spec's contract: start a new interval exactly when the gap from the
previous selected date exceeds the tolerance; each interval spans from the
first to the last date of its group. -/

/-- Scan carrying the start and the last date of the open interval. -/
def scanAux (tol : Nat) : Nat → Nat → List Nat → List (Nat × Nat)
  | s, last, [] => [(s, last)]
  | s, last, d :: ds =>
    if tol < d - last then (s, last) :: scanAux tol d d ds else scanAux tol s d ds

/-- Gap-tolerant interval scan over a date list. -/
def scanIntervals (tol : Nat) : List Nat → List (Nat × Nat)
  | [] => []
  | d :: ds => scanAux tol d d ds

/-- Longest prefix reachable from `last` without a gap, and the remainder. -/
def takeRun (tol : Nat) : Nat → List Nat → List Nat × List Nat
  | _, [] => ([], [])
  | last, d :: ds =>
    if tol < d - last then ([], d :: ds)
    else ((takeRun tol d ds).1.cons d, (takeRun tol d ds).2)

/-! Resampler (`.resample('ME').last()` and `.resample('ME').max()`). -/

/-- Last observation within calendar month `m` of a daily series (inputs
are ordered by date, as provider indices are). -/
def lastInMonth (s : DailySeries) (m : Nat) : Option ℚ :=
  ((s.filter (fun q => q.1.1 == m)).getLast?).map (fun q => q.2)

/-- Month of the first observation. -/
def firstMonth : DailySeries → Nat
  | [] => 0
  | q :: _ => q.1.1

/-- Month of the last observation. -/
def lastMonth : DailySeries → Nat
  | [] => 0
  | q :: qs => (List.getLastD qs q).1.1

/-- Month-end resampling with `last()`: one row per calendar month from the
month of the first observation to the month of the last; the row holds the
last observation in that month, and `none` when the month has no
observation (pandas produces a NaN row for an empty bin inside the range). -/
def resampleME (s : DailySeries) : Series :=
  match s with
  | [] => []
  | _ => (List.range (lastMonth s - firstMonth s + 1)).map
      (fun j => (firstMonth s + j, lastInMonth s (firstMonth s + j)))

/-- Maximum observation within calendar month `m`. -/
def maxInMonth (s : DailySeries) (m : Nat) : Option ℚ :=
  match (s.filter (fun q => q.1.1 == m)).map (fun q => q.2) with
  | [] => none
  | v :: vs => some (vs.foldl max v)

/-- Month-end resampling with `max()`, used for the recession indicator. -/
def resampleMEmax (s : DailySeries) : Series :=
  match s with
  | [] => []
  | _ => (List.range (lastMonth s - firstMonth s + 1)).map
      (fun j => (firstMonth s + j, maxInMonth s (firstMonth s + j)))

/-! Percent change: `pct_change(periods=6) * 100` (positional lookback;
no filling of missing values, the pandas >= 3.0 default). -/

/-- Positional percent change of a value list: entry `i` is
`(v_i / v_(i-lb) - 1) * 100` when both positions exist and hold values,
missing otherwise. -/
def pctChangeVals (lb : Nat) (vals : List (Option ℚ)) : List (Option ℚ) :=
  (List.range vals.length).map (fun i =>
    if lb ≤ i then
      match vals.get? (i - lb), vals.get? i with
      | some (some vp), some (some vc) => some ((vc / vp - 1) * 100)
      | _, _ => none
    else none)

/-- Six-month percent change of a monthly series, keeping the dates. -/
def pctChange6 (s : Series) : Series :=
  (s.map (fun q => q.1)).zip (pctChangeVals 6 (s.map (fun q => q.2)))

/-- Value at position `i` of a series: `none` past the end or when the
entry holds a missing value. -/
def valueAtPos (s : Series) (i : Nat) : Option ℚ :=
  match s.get? i with
  | some q => q.2
  | none => none

/-! Splice of the World Bank (primary) and Yahoo Finance (secondary)
series inside `load_gold_silver_data` (lines 113-193). -/

/-- The cutover `wb_end_date = series.dropna().index[-1]`: for a sorted
index this is the maximal date carrying a non-missing value. -/
def cutoverOf (p : Series) : Nat :=
  ((p.filter (fun q => q.2.isSome)).map (fun q => q.1)).foldl max 0

/-- Series assignment `s[d] = v`: overwrite the entry at date `d`, or
append a new entry when the date is absent from the index. -/
def setDate (s : Series) (d : Nat) (v : Option ℚ) : Series :=
  if (s.find? (fun q => q.1 == d)).isSome then
    s.map (fun q => if q.1 == d then (d, v) else q)
  else s ++ [(d, v)]

/-- Sorted insertion by date. -/
def insertSorted (q : Nat × Option ℚ) : Series → Series
  | [] => [q]
  | r :: rs => if q.1 ≤ r.1 then q :: r :: rs else r :: insertSorted q rs

/-- Sorting by date (`sort_index()`). -/
def sortByDate (s : Series) : Series := s.foldr insertSorted []

/-- The splice loop (lines 169-181): copy the primary series, assign every
secondary entry whose date is strictly past the cutover and whose value is
non-missing, then sort by date. -/
def spliceSeries (p s : Series) (c : Nat) : Series :=
  sortByDate ((s.filter (fun q => decide (c < q.1) && q.2.isSome)).foldl
    (fun acc q => setDate acc q.1 q.2) p)

/-- The four series returned by `load_gold_silver_data`. -/
structure GSData where
  gold : Series
  gold_pct : Series
  silver : Series
  silver_pct : Series
deriving DecidableEq

/-- The function `load_gold_silver_data` (lines 113-193).  The World Bank
workbook fetch-and-parse is the capability `wbFetch` yielding the monthly
gold and silver series; the Yahoo Finance daily fetches go through
`load_or_download` under the fixed keys `yf_gold.pkl` / `yf_silver.pkl`.
All of it runs inside one try block whose catch-all handler prints a
warning and returns four empty series, so any fetch failure (primary or
secondary) yields the empty result rather than an exception. -/
def load_gold_silver_data {ε : Type} (wbFetch : Except ε (Series × Series))
    (cache : Cache DailySeries) (downloadG downloadS : Unit → Except ε DailySeries) :
    GSData × Cache DailySeries :=
  match wbFetch with
  | .error _ => (⟨[], [], [], []⟩, cache)
  | .ok (wbGold, wbSilver) =>
    match load_or_download cache "yf_gold.pkl" downloadG with
    | ⟨.error _, c1, _⟩ => (⟨[], [], [], []⟩, c1)
    | ⟨.ok yfG, c1, _⟩ =>
      match load_or_download c1 "yf_silver.pkl" downloadS with
      | ⟨.error _, c2, _⟩ => (⟨[], [], [], []⟩, c2)
      | ⟨.ok yfS, c2, _⟩ =>
        let c := cutoverOf wbGold
        let gold := spliceSeries wbGold (resampleME yfG) c
        let silver := spliceSeries wbSilver (resampleME yfS) c
        (⟨gold, pctChange6 gold, silver, pctChange6 silver⟩, c2)

/-- The function `load_nasdaq_data` (lines 75-91): cached Yahoo fetch under
the fixed key `nasdaq.pkl` (the key does not mention the date range), then
month-end resample and 6-month percent change of the close series. -/
def load_nasdaq_data {ε : Type} (cache : Cache DailySeries)
    (fetch : Nat → Nat → Except ε DailySeries) (startD endD : Nat) :
    Except ε (DailySeries × Series × Series) × Cache DailySeries × Bool :=
  match load_or_download cache "nasdaq.pkl" (fun _ => fetch startD endD) with
  | ⟨.ok raw, c, inv⟩ => (.ok (raw, resampleME raw, pctChange6 (resampleME raw)), c, inv)
  | ⟨.error e, c, inv⟩ => (.error e, c, inv)

/-- The function `load_recession_data` (lines 221-236): cached FRED fetch
under `recessions.pkl`, month-end `max()` resample; on failure a warning is
printed and `(none, none)` is returned. -/
def load_recession_data {ε : Type} (cache : Cache DailySeries)
    (download : Unit → Except ε DailySeries) :
    (Option DailySeries × Option Series) × Cache DailySeries :=
  match load_or_download cache "recessions.pkl" download with
  | ⟨.ok d, c, _⟩ => ((some d, some (resampleMEmax d)), c)
  | ⟨.error _, c, _⟩ => ((none, none), c)

/-- A row of the combined table of `load_all_data`. -/
structure CombinedRow where
  date : Nat
  nasdaqPct : Option ℚ
  sp500Pct : Option ℚ
  yieldSpread : Option ℚ
  goldPct : Option ℚ
  silverPct : Option ℚ
  recession : Option ℚ
deriving DecidableEq

/-- Sorted insertion of a natural number. -/
def insertNat (n : Nat) : List Nat → List Nat
  | [] => [n]
  | m :: ms => if n ≤ m then n :: m :: ms else m :: insertNat n ms

/-- Insertion sort of a list of naturals. -/
def sortNats (l : List Nat) : List Nat := l.foldr insertNat []

/-- Deduplication of adjacent equal entries of a sorted list. -/
def dedupSorted : List Nat → List Nat
  | [] => []
  | [n] => [n]
  | n :: m :: ms => if n == m then dedupSorted (m :: ms) else n :: dedupSorted (m :: ms)

/-- Union index of the five input series, sorted with unique dates. -/
def unionDates (n s y g si : Series) : List Nat :=
  dedupSorted (sortNats (n.map (fun q => q.1) ++ s.map (fun q => q.1) ++
    y.map (fun q => q.1) ++ g.map (fun q => q.1) ++ si.map (fun q => q.1)))

/-- The merge step of `load_all_data` (lines 254-268): the DataFrame
constructor unions the indices of the five series and aligns each column on
that index; the recession column is aligned onto the same index when the
recession load succeeded and is the constant 0 otherwise; finally
`dropna(subset=['NASDAQ 6M %', 'Yield Spread'])` keeps exactly the rows
where those two columns are present. -/
def load_all_data_combine (n s y g si : Series) (recMonthly : Option Series) :
    List CombinedRow :=
  ((unionDates n s y g si).map (fun d =>
    { date := d
      nasdaqPct := lookupDate n d
      sp500Pct := lookupDate s d
      yieldSpread := lookupDate y d
      goldPct := lookupDate g d
      silverPct := lookupDate si d
      recession := match recMonthly with
        | some r => lookupDate r d
        | none => some 0 : CombinedRow })).filter
    (fun r => r.nasdaqPct.isSome && r.yieldSpread.isSome)

/-! Theorems.  Shared helper lemmas first, then one theorem per claim. -/

/-- Helper: a cache hit returns the stored payload without invoking the
download function and leaves the cache unchanged. -/
theorem lod_hit {ε α : Type} {cache : Cache α} {k : String} {v : α}
    (h : lookupKey cache k = some v) (download : Unit → Except ε α) :
    load_or_download cache k download = ⟨.ok v, cache, false⟩ := by
  simp [load_or_download, h]

/-- Helper: on a cache miss with a successful download, the payload is
stored under the key and returned. -/
theorem lod_miss_ok {ε α : Type} {cache : Cache α} {k : String} {d : α}
    {download : Unit → Except ε α}
    (h : lookupKey cache k = none) (hd : download () = .ok d) :
    load_or_download cache k download = ⟨.ok d, (k, d) :: cache, true⟩ := by
  simp [load_or_download, h, hd]

/-- Helper: on a cache miss with a failing download, the failure is
propagated and the cache is unchanged. -/
theorem lod_miss_fail {ε α : Type} {cache : Cache α} {k : String} {e : ε}
    {download : Unit → Except ε α}
    (h : lookupKey cache k = none) (hd : download () = .error e) :
    load_or_download cache k download = ⟨.error e, cache, true⟩ := by
  simp [load_or_download, h, hd]

/-- Helper: looking a key up in the singleton cache written by a miss. -/
theorem lookupKey_cons_self {α : Type} (k : String) (d : α) (c : Cache α) :
    lookupKey ((k, d) :: c) k = some d := by
  simp [lookupKey, List.find?]

/-- C7: cache idempotence of `load_or_download`: starting from an empty
cache, two successive calls with the same key and the same (successful)
download function invoke the download exactly once — on the first call,
not the second — and the second call's result equals the first's. -/
theorem cache_idempotence {ε α : Type} (k : String) (download : Unit → Except ε α)
    (v : α) (h : download () = .ok v) :
    (load_or_download ([] : Cache α) k download).invoked = true ∧
    (load_or_download (load_or_download ([] : Cache α) k download).cache k download).invoked
      = false ∧
    (load_or_download (load_or_download ([] : Cache α) k download).cache k download).result
      = (load_or_download ([] : Cache α) k download).result := by
  have h0 : lookupKey ([] : Cache α) k = none := rfl
  rw [lod_miss_ok h0 h]
  rw [lod_hit (lookupKey_cons_self k v []) download]
  exact ⟨rfl, rfl, rfl⟩

/-- C7 witness: the idempotence instance at key "nasdaq.pkl" with a
download that returns the payload `[((0, 1), 2)]`. -/
theorem cache_idempotence_witness :
    (load_or_download ([] : Cache DailySeries) "nasdaq.pkl"
      (fun _ => (Except.ok [(((0:Nat), (1:Nat)), (2:ℚ))] : Except Unit DailySeries))).invoked
      = true ∧
    (load_or_download
      (load_or_download ([] : Cache DailySeries) "nasdaq.pkl"
        (fun _ => (Except.ok [(((0:Nat), (1:Nat)), (2:ℚ))] : Except Unit DailySeries))).cache
      "nasdaq.pkl"
      (fun _ => (Except.ok [(((0:Nat), (1:Nat)), (2:ℚ))] : Except Unit DailySeries))).invoked
      = false ∧
    (load_or_download
      (load_or_download ([] : Cache DailySeries) "nasdaq.pkl"
        (fun _ => (Except.ok [(((0:Nat), (1:Nat)), (2:ℚ))] : Except Unit DailySeries))).cache
      "nasdaq.pkl"
      (fun _ => (Except.ok [(((0:Nat), (1:Nat)), (2:ℚ))] : Except Unit DailySeries))).result
      = (load_or_download ([] : Cache DailySeries) "nasdaq.pkl"
        (fun _ => (Except.ok [(((0:Nat), (1:Nat)), (2:ℚ))] : Except Unit DailySeries))).result :=
  cache_idempotence "nasdaq.pkl" _ [(((0:Nat), (1:Nat)), (2:ℚ))] rfl

/-- C8: failure atomicity of `load_or_download`: for a key not in the
cache, a failing download writes no cache entry — the cache is returned
unchanged — and the failure propagates to the caller. -/
theorem cache_failure_atomicity {ε α : Type} (cache : Cache α) (k : String)
    (download : Unit → Except ε α) (e : ε)
    (hmiss : lookupKey cache k = none) (hfail : download () = .error e) :
    load_or_download cache k download = ⟨.error e, cache, true⟩ :=
  lod_miss_fail hmiss hfail

/-- C8 witness: the failure-atomicity instance at key "yields.pkl" on the
empty cache. -/
theorem cache_failure_atomicity_witness :
    load_or_download ([] : Cache DailySeries) "yields.pkl"
      (fun _ => (Except.error () : Except Unit DailySeries))
      = ⟨.error (), ([] : Cache DailySeries), true⟩ :=
  cache_failure_atomicity [] "yields.pkl" _ () rfl rfl

/-- C10: two-run noninterference of `load_nasdaq_data` with respect to the
date-range arguments: the cache key is the fixed name "nasdaq.pkl", so on
a cache hit the result is identical for every start/end pair and even for
different fetch capabilities. -/
theorem cache_hit_noninterference {ε : Type} (cache : Cache DailySeries) (v : DailySeries)
    (hhit : lookupKey cache "nasdaq.pkl" = some v)
    (f1 f2 : Nat → Nat → Except ε DailySeries) (s1 e1 s2 e2 : Nat) :
    load_nasdaq_data cache f1 s1 e1 = load_nasdaq_data cache f2 s2 e2 := by
  rw [load_nasdaq_data, load_nasdaq_data, lod_hit hhit, lod_hit hhit]

/-- C10 witness: with "nasdaq.pkl" cached, the loader's output does not
depend on the requested date range or the fetch function. -/
theorem cache_hit_noninterference_witness :
    load_nasdaq_data [("nasdaq.pkl", [(((0:Nat), (1:Nat)), (2:ℚ))])]
      (fun _ _ => (Except.ok [] : Except Unit DailySeries)) 0 10
      = load_nasdaq_data [("nasdaq.pkl", [(((0:Nat), (1:Nat)), (2:ℚ))])]
        (fun _ _ => (Except.error () : Except Unit DailySeries)) 5 99 :=
  cache_hit_noninterference [("nasdaq.pkl", [(((0:Nat), (1:Nat)), (2:ℚ))])]
    [(((0:Nat), (1:Nat)), (2:ℚ))] rfl _ _ 0 10 5 99

/-- C3 counterexample: with a successfully fetched non-empty primary
(World Bank) series and a failing secondary (Yahoo Finance) download, the
function returns four empty series — the primary data is discarded, so the
claim that the primary series is returned unmodified fails at this input. -/
theorem secondary_failure_counterexample :
    (load_gold_silver_data
        (Except.ok ([((0:Nat), some (5:ℚ))], [((0:Nat), some (3:ℚ))]))
        ([] : Cache DailySeries)
        (fun _ => (Except.error () : Except Unit DailySeries))
        (fun _ => (Except.ok [] : Except Unit DailySeries))).1
      = ⟨[], [], [], []⟩ ∧
    ([((0:Nat), some (5:ℚ))] : Series) ≠ ([] : Series) := by
  exact ⟨rfl, by simp⟩

/-- C3 amended: if the secondary (Yahoo Finance) gold download fails on a
cache miss while the primary (World Bank) fetch succeeded, the catch-all
handler of `load_gold_silver_data` returns four empty series — discarding
the primary data — together with a printed non-fatal warning; the failure
is swallowed, so it never aborts the pipeline (the function always returns
a value instead of propagating the exception). -/
theorem secondary_failure_returns_empty {ε : Type} (wb : Series × Series)
    (cache : Cache DailySeries) (dg ds : Unit → Except ε DailySeries) (e : ε)
    (hmiss : lookupKey cache "yf_gold.pkl" = none) (hfail : dg () = .error e) :
    (load_gold_silver_data (Except.ok wb) cache dg ds).1 = ⟨[], [], [], []⟩ := by
  obtain ⟨wbG, wbS⟩ := wb
  rw [load_gold_silver_data, lod_miss_fail hmiss hfail]

/-- C3 amended, witness: the degraded empty result at a concrete non-empty
primary series and failing secondary download. -/
theorem secondary_failure_returns_empty_witness :
    (load_gold_silver_data
        (Except.ok ([((0:Nat), some (5:ℚ))], [((0:Nat), some (3:ℚ))]))
        ([] : Cache DailySeries)
        (fun _ => (Except.error () : Except Unit DailySeries))
        (fun _ => (Except.ok [] : Except Unit DailySeries))).1
      = ⟨[], [], [], []⟩ :=
  secondary_failure_returns_empty _ [] _ _ () rfl rfl

/-- C9: if the recession download fails on a cache miss, the pipeline does
not abort: `load_recession_data` returns the absent result `(none, none)`
after a warning, and the merge step of `load_all_data` then fills the
Recession column with the default 0 for every row of the combined table. -/
theorem recession_fallback {ε : Type} (cache : Cache DailySeries)
    (download : Unit → Except ε DailySeries) (e : ε)
    (hmiss : lookupKey cache "recessions.pkl" = none) (hfail : download () = .error e)
    (n s y g si : Series) :
    (load_recession_data cache download).1 = (none, none) ∧
    ∀ r ∈ load_all_data_combine n s y g si none, r.recession = some 0 := by
  constructor
  · rw [load_recession_data, lod_miss_fail hmiss hfail]
  · intro r hr
    obtain ⟨d, _, rfl⟩ := List.mem_map.mp (List.mem_of_mem_filter hr)
    rfl

/-- C9 witness: the fallback at a failing download and a one-row combined
table, whose single row carries Recession = 0. -/
theorem recession_fallback_witness :
    (load_recession_data ([] : Cache DailySeries)
        (fun _ => (Except.error () : Except Unit DailySeries))).1 = (none, none) ∧
    ∀ r ∈ load_all_data_combine [((0:Nat), some (1:ℚ))] [] [((0:Nat), some (2:ℚ))] [] [] none,
      r.recession = some 0 :=
  recession_fallback [] _ () rfl rfl _ _ _ _ _

/-- Helper: after overwriting date `d`, the first date-`d` entry holds the
new value. -/
theorem find?_map_setDate_self (a : Series) (d : Nat) (v : Option ℚ)
    (h : (a.find? (fun q => q.1 == d)).isSome = true) :
    (a.map (fun q => if q.1 == d then (d, v) else q)).find? (fun q => q.1 == d)
      = some (d, v) := by
  induction a with
  | nil => simp [List.find?] at h
  | cons q qs ih =>
    by_cases hq : q.1 = d
    · simp [List.find?_cons, hq]
    · have hq' : (q.1 == d) = false := by simp [hq]
      rw [List.find?_cons, hq'] at h
      simp only [List.map_cons, List.find?_cons, hq', Bool.false_eq_true, if_false]
      exact ih h

/-- Helper: overwriting date `d` does not change lookups at other dates. -/
theorem find?_map_setDate_ne (a : Series) (d d' : Nat) (v : Option ℚ) (hne : d' ≠ d) :
    (a.map (fun q => if q.1 == d then (d, v) else q)).find? (fun q => q.1 == d')
      = a.find? (fun q => q.1 == d') := by
  induction a with
  | nil => rfl
  | cons q qs ih =>
    by_cases hq : q.1 = d
    · have h1 : (d == d') = false := by
        simp only [beq_eq_false_iff_ne, ne_eq]
        exact fun h => hne h.symm
      have h2 : (q.1 == d') = false := by
        rw [hq]; exact h1
      have h0 : (q.1 == d) = true := by simp [hq]
      simp only [List.map_cons, List.find?_cons, h0, if_true, h1, h2]
      exact ih
    · have h0 : (q.1 == d) = false := by simp [hq]
      simp only [List.map_cons, List.find?_cons, h0, Bool.false_eq_true, if_false]
      cases h2 : (q.1 == d') with
      | true => rfl
      | false => exact ih

/-- Helper: a date absent from a list never appears in a filtered sublist. -/
theorem find?_date_filter_none (l : Series) (d : Nat)
    (h : d ∉ l.map (fun q => q.1)) (p : (Nat × Option ℚ) → Bool) :
    (l.filter p).find? (fun q => q.1 == d) = none := by
  rw [List.find?_eq_none]
  intro x hx
  have hxl := List.mem_of_mem_filter hx
  simp only [beq_iff_eq]
  intro hxd
  exact h (List.mem_map.mpr ⟨x, hxl, hxd⟩)

/-- Helper: semantics of the assignment `s[d] = v` under lookup. -/
theorem lookupDate_setDate (a : Series) (d d' : Nat) (v : Option ℚ) :
    lookupDate (setDate a d v) d' = if d' = d then v else lookupDate a d' := by
  unfold setDate
  by_cases h : (a.find? (fun q => q.1 == d)).isSome = true
  · rw [if_pos h]
    by_cases hd : d' = d
    · subst hd
      rw [lookupDate, find?_map_setDate_self a d' v h, if_pos rfl]
    · rw [lookupDate, find?_map_setDate_ne a d d' v hd, if_neg hd, lookupDate]
  · have hnone : a.find? (fun q => q.1 == d) = none := by
      cases hfa : a.find? (fun q => q.1 == d) <;> simp_all
    rw [if_neg h]
    by_cases hd : d' = d
    · subst hd
      rw [lookupDate, List.find?_append, hnone, if_pos rfl]
      simp [List.find?]
    · rw [lookupDate, List.find?_append, lookupDate]
      have hdd : (d == d') = false := by
        simp only [beq_eq_false_iff_ne, ne_eq]
        exact fun h => hd h.symm
      have h1 : List.find? (fun q => q.1 == d') [(d, v)] = none := by
        simp [List.find?, hdd]
      rw [h1]
      cases hfa : a.find? (fun q => q.1 == d') <;> simp [hd]

/-- Helper: the dates of `setDate a d v` are those of `a`, with `d`
appended when it was absent. -/
theorem map_fst_setDate (a : Series) (d : Nat) (v : Option ℚ) :
    (setDate a d v).map (fun q => q.1) =
      if (a.find? (fun q => q.1 == d)).isSome = true then a.map (fun q => q.1)
      else a.map (fun q => q.1) ++ [d] := by
  unfold setDate
  by_cases h : (a.find? (fun q => q.1 == d)).isSome = true
  · rw [if_pos h, if_pos h, List.map_map]
    refine List.map_congr_left (fun q _ => ?_)
    by_cases hq : q.1 = d
    · simp [hq]
    · simp [hq]
  · rw [if_neg h, if_neg h, List.map_append]
    rfl

/-- Helper: assignment preserves uniqueness of the date index. -/
theorem nodup_fst_setDate {a : Series} {d : Nat} {v : Option ℚ}
    (h : (a.map (fun q => q.1)).Nodup) : ((setDate a d v).map (fun q => q.1)).Nodup := by
  rw [map_fst_setDate]
  by_cases hf : (a.find? (fun q => q.1 == d)).isSome = true
  · rwa [if_pos hf]
  · rw [if_neg hf]
    have hnone : a.find? (fun q => q.1 == d) = none := by
      cases hfa : a.find? (fun q => q.1 == d) <;> simp_all
    rw [List.nodup_append]
    refine ⟨h, List.nodup_singleton d, ?_⟩
    intro x hx hx2
    rcases List.mem_singleton.mp hx2 with rfl
    rcases List.mem_map.mp hx with ⟨q, hq, hqd⟩
    have := List.find?_eq_none.mp hnone q hq
    simp [hqd] at this

/-- Helper: lookup after folding assignments equals the first matching
assignment, else the lookup in the start series (unique assignment dates). -/
theorem lookupDate_foldl_setDate : ∀ (l : List (Nat × Option ℚ)) (acc : Series) (d : Nat),
    (l.map (fun q => q.1)).Nodup →
    lookupDate (l.foldl (fun a q => setDate a q.1 q.2) acc) d =
      (match l.find? (fun q => q.1 == d) with
       | some q => q.2
       | none => lookupDate acc d) := by
  intro l
  induction l with
  | nil => intro acc d _; rfl
  | cons x xs ih =>
    intro acc d hnd
    have hnd' : (xs.map (fun q => q.1)).Nodup := (List.nodup_cons.mp hnd).2
    have hx : x.1 ∉ xs.map (fun q => q.1) := (List.nodup_cons.mp hnd).1
    rw [List.foldl_cons, ih _ d hnd']
    by_cases hd : x.1 = d
    · have hbeq : (x.1 == d) = true := by simp [hd]
      rw [List.find?_cons, hbeq]
      have hxs : xs.find? (fun q => q.1 == d) = none := by
        rw [List.find?_eq_none]
        intro q hq
        simp only [beq_iff_eq]
        intro hqd
        exact hx (List.mem_map.mpr ⟨q, hq, by rw [hqd, ← hd]⟩)
      rw [hxs, lookupDate_setDate, if_pos hd.symm]
    · have hbeq : (x.1 == d) = false := by simp [hd]
      rw [List.find?_cons, hbeq]
      cases hfx : xs.find? (fun q => q.1 == d) with
      | some q => rfl
      | none => rw [lookupDate_setDate, if_neg (fun h => hd h.symm)]

/-- Helper: folding assignments preserves uniqueness of the date index. -/
theorem nodup_fst_foldl_setDate : ∀ (l : List (Nat × Option ℚ)) (acc : Series),
    ((acc : Series).map (fun q => q.1)).Nodup →
    ((l.foldl (fun a q => setDate a q.1 q.2) acc).map (fun q => q.1)).Nodup := by
  intro l
  induction l with
  | nil => intro acc h; exact h
  | cons x xs ih => intro acc h; exact ih _ (nodup_fst_setDate h)

/-- Helper: sorted insertion permutes. -/
theorem insertSorted_perm (q : Nat × Option ℚ) :
    ∀ l : Series, (insertSorted q l).Perm (q :: l) := by
  intro l
  induction l with
  | nil => exact List.Perm.refl _
  | cons r rs ih =>
    rw [insertSorted]
    by_cases h : q.1 ≤ r.1
    · rw [if_pos h]
    · rw [if_neg h]
      exact (ih.cons r).trans (List.Perm.swap q r rs)

/-- Helper: sorting by date permutes. -/
theorem sortByDate_perm (s : Series) : (sortByDate s).Perm s := by
  induction s with
  | nil => exact List.Perm.refl _
  | cons r rs ih =>
    have : sortByDate (r :: rs) = insertSorted r (sortByDate rs) := rfl
    rw [this]
    exact (insertSorted_perm r (sortByDate rs)).trans (ih.cons r)

/-- Helper: lookup is invariant under permutation when dates are unique. -/
theorem lookupDate_perm : ∀ {l₁ l₂ : Series}, l₁.Perm l₂ →
    (l₁.map (fun q => q.1)).Nodup → ∀ d, lookupDate l₁ d = lookupDate l₂ d := by
  intro l₁ l₂ h
  induction h with
  | nil => intro _ _; rfl
  | cons x h ih =>
    intro hn d
    rw [lookupDate, lookupDate, List.find?_cons, List.find?_cons]
    cases hx : (x.1 == d) with
    | true => rfl
    | false =>
      have := ih ((List.nodup_cons.mp hn).2) d
      rw [lookupDate, lookupDate] at this
      exact this
  | swap x y l =>
    intro hn d
    have hxy : y.1 ≠ x.1 := by
      simp only [List.map_cons, List.nodup_cons] at hn
      intro hcon
      exact hn.1 (by rw [hcon]; exact List.mem_cons_self _ _)
    rw [lookupDate, lookupDate, List.find?_cons, List.find?_cons]
    cases hy : (y.1 == d) with
    | true =>
      have hyd : y.1 = d := by simpa using hy
      have hx : (x.1 == d) = false := by
        simp only [beq_eq_false_iff_ne, ne_eq]
        rw [← hyd]
        intro hcon
        exact hxy hcon.symm
      rw [List.find?_cons, List.find?_cons, hx, hy]
    | false =>
      cases hx : (x.1 == d) with
      | true => rw [List.find?_cons, List.find?_cons, hx, hy]
      | false => rw [List.find?_cons, List.find?_cons, hx, hy]
  | trans h₁ h₂ ih₁ ih₂ =>
    intro hn d
    rw [ih₁ hn d, ih₂ (((h₁.map (fun q => q.1)).nodup) hn) d]

/-- Helper: the initial accumulator bounds a `foldl max`. -/
theorem le_foldl_max_init : ∀ (l : List Nat) (b : Nat), b ≤ l.foldl max b := by
  intro l
  induction l with
  | nil => intro b; exact Nat.le_refl b
  | cons x xs ih => intro b; exact le_trans (Nat.le_max_left b x) (ih (max b x))

/-- Helper: every member bounds a `foldl max`. -/
theorem mem_le_foldl_max : ∀ (l : List Nat) (a b : Nat), a ∈ l → a ≤ l.foldl max b := by
  intro l
  induction l with
  | nil => intro a b ha; cases ha
  | cons x xs ih =>
    intro a b ha
    rcases List.mem_cons.mp ha with rfl | ha'
    · exact le_trans (Nat.le_max_right b a) (le_foldl_max_init xs (max b a))
    · exact ih a (max b x) ha'

/-- Helper: any date carrying a value is at most the cutover. -/
theorem lookupDate_le_cutoverOf (p : Series) (d : Nat) (v : ℚ)
    (h : lookupDate p d = some v) : d ≤ cutoverOf p := by
  rw [lookupDate] at h
  cases hf : p.find? (fun q => q.1 == d) with
  | none => rw [hf] at h; cases h
  | some q =>
    rw [hf] at h
    have hq : q ∈ p := List.mem_of_find?_eq_some hf
    have hqd : q.1 = d := by have := List.find?_some hf; simpa using this
    have hmem : q ∈ p.filter (fun q => q.2.isSome) :=
      List.mem_filter.mpr ⟨hq, by rw [show q.2 = some v from h]; rfl⟩
    exact mem_le_foldl_max _ d 0 (List.mem_map.mpr ⟨q, hmem, hqd⟩)

/-- Helper: past the cutover the primary series has no value. -/
theorem lookupDate_none_of_cutover_lt (p : Series) (d : Nat)
    (h : cutoverOf p < d) : lookupDate p d = none := by
  cases hl : lookupDate p d with
  | none => rfl
  | some v => exact absurd (lookupDate_le_cutoverOf p d v hl) (Nat.not_le.mpr h)

/-- Helper: the splice filter seen through a date lookup: the first date-`d`
entry of the secondary series survives the filter exactly when `d` is past
the cutover and the entry carries a value (dates unique). -/
theorem find?_filter_splice (s : Series) (c d : Nat)
    (hs : (s.map (fun q => q.1)).Nodup) :
    (s.filter (fun q => decide (c < q.1) && q.2.isSome)).find? (fun q => q.1 == d) =
      if c < d then
        (match s.find? (fun q => q.1 == d) with
         | some q => if q.2.isSome then some q else none
         | none => none)
      else none := by
  induction s with
  | nil => simp [List.find?]
  | cons q qs ih =>
    have hnd' : (qs.map (fun q => q.1)).Nodup := (List.nodup_cons.mp hs).2
    have hqnotin : q.1 ∉ qs.map (fun r => r.1) := (List.nodup_cons.mp hs).1
    by_cases hq : q.1 = d
    · subst hq
      have hnone := find?_date_filter_none qs q.1 hqnotin
        (fun r => decide (c < r.1) && r.2.isSome)
      by_cases hc : c < q.1
      · by_cases hv : q.2.isSome = true
        · simp [List.filter_cons, List.find?_cons, hc, hv]
        · have hv' : q.2.isSome = false := by
            simp only [Bool.not_eq_true] at hv
            exact hv
          simp only [List.filter_cons, List.find?_cons, hv', Bool.and_false,
            Bool.false_eq_true, if_false, if_pos hc]
          rw [hnone]
          simp [hv']
      · have hdrop : (decide (c < q.1) && q.2.isSome) = false := by simp [hc]
        simp only [List.filter_cons, hdrop, Bool.false_eq_true, if_false, if_neg hc]
        exact hnone
    · have hbeq : (q.1 == d) = false := by simp [hq]
      by_cases hkeep : (decide (c < q.1) && q.2.isSome) = true
      · rw [List.filter_cons, if_pos hkeep, List.find?_cons, hbeq,
          ih hnd', List.find?_cons, hbeq]
      · have hkeep' : (decide (c < q.1) && q.2.isSome) = false := by
          simp only [Bool.not_eq_true] at hkeep
          exact hkeep
        rw [List.filter_cons, if_neg (by simp [hkeep']), ih hnd', List.find?_cons, hbeq]

/-- C2: the splice invariant of `load_gold_silver_data`, with the cutover
computed as the last date carrying a non-missing primary value: at every
date up to and including the cutover the spliced series equals the primary
(primary wins at exactly the cutover); strictly past the cutover it equals
the secondary value when that is present and non-missing; and when the
secondary is missing past the cutover the spliced series has no value
there — no forward-fill from the primary is introduced. -/
theorem splice_invariant (p s : Series)
    (hp : (p.map (fun q => q.1)).Nodup) (hs : (s.map (fun q => q.1)).Nodup) (d : Nat) :
    (d ≤ cutoverOf p →
      lookupDate (spliceSeries p s (cutoverOf p)) d = lookupDate p d) ∧
    (∀ v : ℚ, cutoverOf p < d → lookupDate s d = some v →
      lookupDate (spliceSeries p s (cutoverOf p)) d = some v) ∧
    (cutoverOf p < d → lookupDate s d = none →
      lookupDate (spliceSeries p s (cutoverOf p)) d = none) := by
  set c := cutoverOf p with hc
  set fl := s.filter (fun q => decide (c < q.1) && q.2.isSome) with hfl
  set L := fl.foldl (fun a q => setDate a q.1 q.2) p with hL
  have hflnd : (fl.map (fun q => q.1)).Nodup :=
    ((List.filter_sublist s).map (fun q => q.1)).nodup hs
  have hLnd : (L.map (fun q => q.1)).Nodup := nodup_fst_foldl_setDate fl p hp
  have hlook : ∀ d', lookupDate (spliceSeries p s c) d' = lookupDate L d' := by
    intro d'
    have hperm : (sortByDate L).Perm L := sortByDate_perm L
    have hnd : ((sortByDate L).map (fun q => q.1)).Nodup :=
      ((hperm.symm.map (fun q => q.1)).nodup) hLnd
    exact lookupDate_perm hperm hnd d'
  have hfold := lookupDate_foldl_setDate fl p d hflnd
  rw [← hL] at hfold
  have hfind := find?_filter_splice s c d hs
  rw [← hfl] at hfind
  refine ⟨?_, ?_, ?_⟩
  · intro hd
    rw [hlook d, hfold, hfind, if_neg (Nat.not_lt.mpr hd)]
  · intro v hcd hv
    rw [lookupDate] at hv
    cases hf : s.find? (fun q => q.1 == d) with
    | none => rw [hf] at hv; cases hv
    | some q =>
      rw [hf] at hv
      have hv' : q.2 = some v := hv
      rw [hlook d, hfold, hfind, if_pos hcd, hf]
      have hq2 : q.2.isSome = true := by rw [hv']; rfl
      simp [hq2, hv']
  · intro hcd hv
    rw [lookupDate] at hv
    have hpd : lookupDate p d = none := lookupDate_none_of_cutover_lt p d hcd
    cases hf : s.find? (fun q => q.1 == d) with
    | none => rw [hlook d, hfold, hfind, if_pos hcd, hf]; exact hpd
    | some q =>
      rw [hf] at hv
      have hv' : q.2 = none := hv
      rw [hlook d, hfold, hfind, if_pos hcd, hf]
      have hq2 : q.2.isSome = false := by rw [hv']; rfl
      simp [hq2, hpd]

/-- C2 witness: at a concrete primary/secondary pair with cutover 1, date
1 keeps the primary value, date 2 takes the secondary value (even though
the primary held NaN there), and date 4 — where the secondary is missing —
has no value. -/
theorem splice_invariant_witness :
    lookupDate (spliceSeries [((0:Nat), some (10:ℚ)), (1, some 11), (2, none)]
      [((1:Nat), some (99:ℚ)), (2, some 22), (3, some 33), (4, none)]
      (cutoverOf [((0:Nat), some (10:ℚ)), (1, some 11), (2, none)])) 1
      = lookupDate [((0:Nat), some (10:ℚ)), (1, some 11), (2, none)] 1 ∧
    lookupDate (spliceSeries [((0:Nat), some (10:ℚ)), (1, some 11), (2, none)]
      [((1:Nat), some (99:ℚ)), (2, some 22), (3, some 33), (4, none)]
      (cutoverOf [((0:Nat), some (10:ℚ)), (1, some 11), (2, none)])) 2
      = some 22 ∧
    lookupDate (spliceSeries [((0:Nat), some (10:ℚ)), (1, some 11), (2, none)]
      [((1:Nat), some (99:ℚ)), (2, some 22), (3, some 33), (4, none)]
      (cutoverOf [((0:Nat), some (10:ℚ)), (1, some 11), (2, none)])) 4
      = none :=
  ⟨(splice_invariant _ _ (by decide) (by decide) 1).1 (by decide),
   (splice_invariant _ _ (by decide) (by decide) 2).2.1 22 (by decide) (by decide),
   (splice_invariant _ _ (by decide) (by decide) 4).2.2 (by decide) (by decide)⟩

/-- Helper: pointwise description of `zip` on equal-length lists. -/
theorem get?_zip_eq {α β : Type} : ∀ (l1 : List α) (l2 : List β),
    l1.length = l2.length → ∀ i : Nat,
    (l1.zip l2).get? i = (match l1.get? i, l2.get? i with
      | some a, some b => some (a, b)
      | _, _ => none) := by
  intro l1
  induction l1 with
  | nil =>
    intro l2 h i
    cases l2 with
    | nil => cases i <;> rfl
    | cons b bs => simp at h
  | cons a as ih =>
    intro l2 h i
    cases l2 with
    | nil => simp at h
    | cons b bs =>
      cases i with
      | zero => rfl
      | succ j =>
        have h' : as.length = bs.length := by simpa using h
        exact ih bs h' j

/-- Helper: pointwise description of the percent-change value list. -/
theorem pctChangeVals_get? (lb : Nat) (vals : List (Option ℚ)) (i : Nat) :
    (pctChangeVals lb vals).get? i =
      if i < vals.length then
        some (if lb ≤ i then
          (match vals.get? (i - lb), vals.get? i with
           | some (some vp), some (some vc) => some ((vc / vp - 1) * 100)
           | _, _ => none)
          else none)
      else none := by
  rw [pctChangeVals, List.get?_map]
  by_cases h : i < vals.length
  · rw [List.get?_range h, if_pos h]
    rfl
  · rw [if_neg h]
    have hn : (List.range vals.length).get? i = none := by
      rw [List.get?_eq_none, List.length_range]
      exact Nat.le_of_not_lt h
    rw [hn]
    rfl

/-- Helper: the value at position `i` of the 6-month percent change. -/
theorem valueAtPos_pctChange6 (s : Series) (i : Nat) :
    valueAtPos (pctChange6 s) i =
      if 6 ≤ i then
        (match (s.map (fun q => q.2)).get? (i - 6), (s.map (fun q => q.2)).get? i with
         | some (some vp), some (some vc) => some ((vc / vp - 1) * 100)
         | _, _ => none)
      else none := by
  have hlen : (s.map (fun q => q.1)).length = (pctChangeVals 6 (s.map (fun q => q.2))).length := by
    simp [pctChangeVals]
  rw [valueAtPos, pctChange6, get?_zip_eq _ _ hlen i, pctChangeVals_get?]
  simp only [List.length_map, List.get?_map]
  by_cases h : i < s.length
  · obtain ⟨q, hq⟩ : ∃ q, s.get? i = some q := by
      cases hsi : s.get? i with
      | none => exact absurd (List.get?_eq_none.mp hsi) (Nat.not_le.mpr h)
      | some q => exact ⟨q, rfl⟩
    rw [if_pos h, hq]
    rfl
  · have hnone : s.get? i = none := List.get?_eq_none.mpr (Nat.le_of_not_lt h)
    rw [if_neg h, hnone]
    by_cases h6 : 6 ≤ i
    · rw [if_pos h6]
      cases hX : Option.map (fun q : Nat × Option ℚ => q.2) (s.get? (i - 6)) with
      | none => rfl
      | some o => cases o <;> rfl
    · rw [if_neg h6]
      rfl

/-- C5: the percent-change derivation `pct_change(periods=6) * 100` keeps
the series length; the first six entries are missing; any entry whose
six-back predecessor is missing is missing (not zero, not an error); and an
entry with both its own and its predecessor value present equals
`100 * (v_i - v_(i-6)) / v_(i-6)`.  Hence a length-5 series yields
all-missing output and a length-7 series has only its 7th value
non-missing, equal to `100 * (v7 - v1) / v1`. -/
theorem pct_change_boundary (s : Series) :
    ((pctChange6 s).length = s.length) ∧
    (∀ i, i < 6 → valueAtPos (pctChange6 s) i = none) ∧
    (∀ i, 6 ≤ i → valueAtPos s (i - 6) = none → valueAtPos (pctChange6 s) i = none) ∧
    (∀ i vp vc, 6 ≤ i → valueAtPos s (i - 6) = some vp → valueAtPos s i = some vc →
      vp ≠ 0 → valueAtPos (pctChange6 s) i = some (100 * (vc - vp) / vp)) := by
  refine ⟨?_, ?_, ?_, ?_⟩
  · simp [pctChange6, pctChangeVals]
  · intro i hi
    rw [valueAtPos_pctChange6, if_neg (by omega)]
  · intro i h6 hpred
    rw [valueAtPos_pctChange6, if_pos h6]
    cases hs6 : s.get? (i - 6) with
    | none =>
      rw [List.get?_map, hs6]
      cases hX : (s.map (fun q => q.2)).get? i with
      | none => rfl
      | some o => cases o <;> rfl
    | some q =>
      rw [valueAtPos, hs6] at hpred
      have hq2 : q.2 = none := hpred
      rw [List.get?_map, hs6, Option.map_some', hq2]
  · intro i vp vc h6 hpred hcur hvp
    rw [valueAtPos_pctChange6, if_pos h6]
    cases hs6 : s.get? (i - 6) with
    | none => rw [valueAtPos, hs6] at hpred; cases hpred
    | some qp =>
      cases hsi : s.get? i with
      | none => rw [valueAtPos, hsi] at hcur; cases hcur
      | some qc =>
        rw [valueAtPos, hs6] at hpred
        rw [valueAtPos, hsi] at hcur
        have hp : qp.2 = some vp := hpred
        have hc : qc.2 = some vc := hcur
        rw [List.get?_map, hs6, Option.map_some', hp]
        rw [List.get?_map, hsi, Option.map_some', hc]
        have harith : (vc / vp - 1) * 100 = 100 * (vc - vp) / vp := by
          field_simp
          ring
        simp [harith]

/-- C5 witness: on the concrete length-7 monthly series with values
1,2,3,4,5,6,3, the 7th output value is `100 * (3 - 1) / 1` and the 3rd is
missing. -/
theorem pct_change_boundary_witness :
    valueAtPos (pctChange6 [((0:Nat), some (1:ℚ)), (1, some 2), (2, some 3), (3, some 4),
      (4, some 5), (5, some 6), (6, some 3)]) 6 = some (100 * ((3:ℚ) - 1) / 1) ∧
    valueAtPos (pctChange6 [((0:Nat), some (1:ℚ)), (1, some 2), (2, some 3), (3, some 4),
      (4, some 5), (5, some 6), (6, some 3)]) 2 = none :=
  ⟨(pct_change_boundary _).2.2.2 6 1 3 (by decide) (by decide) (by decide) (by decide),
   (pct_change_boundary _).2.1 2 (by decide)⟩

/-- C4 counterexample: a daily series with observations only in months 0
and 2 resamples to three rows — the observation-free month 1 yields a
missing-value row, not the absence of a row claimed for months without
observations. -/
theorem resample_gap_counterexample :
    resampleME [(((0:Nat), (5:Nat)), (1:ℚ)), (((2:Nat), (10:Nat)), (2:ℚ))]
      = [(0, some 1), (1, none), (2, some 2)] ∧
    (([(((0:Nat), (5:Nat)), (1:ℚ)), (((2:Nat), (10:Nat)), (2:ℚ))] : DailySeries).all
      (fun q => !(q.1.1 == 1))) = true :=
  ⟨rfl, rfl⟩

/-- C4 amended: month-end resampling with `last()` produces exactly one row
per calendar month from the month of the first observation to the month of
the last; a row holds the value of the last observation within its month,
and is a missing-value (NaN) row — not absent — when that month has no
observation; in particular the daily series with values on 2020-01-05,
2020-01-20 and 2020-02-10 yields exactly two rows, January's from
2020-01-20 and February's from 2020-02-10. -/
theorem resample_monthly_rows :
    (∀ s : DailySeries, s ≠ [] →
      ((resampleME s).map (fun r => r.1) =
        (List.range (lastMonth s - firstMonth s + 1)).map (fun j => firstMonth s + j)) ∧
      (∀ r ∈ resampleME s, r.2 = lastInMonth s r.1)) ∧
    (∀ v1 v2 v3 : ℚ, resampleME [((0, 5), v1), ((0, 20), v2), ((1, 10), v3)]
      = [(0, some v2), (1, some v3)]) := by
  constructor
  · intro s hs
    have hmatch : resampleME s = (List.range (lastMonth s - firstMonth s + 1)).map
        (fun j => (firstMonth s + j, lastInMonth s (firstMonth s + j))) := by
      cases s with
      | nil => exact absurd rfl hs
      | cons q qs => rfl
    constructor
    · rw [hmatch, List.map_map]
      rfl
    · intro r hr
      rw [hmatch] at hr
      obtain ⟨j, _, rfl⟩ := List.mem_map.mp hr
      rfl
  · intro v1 v2 v3
    rfl

/-- C4 amended, witness: on the month-gap series the rows cover months 0,
1, 2 and the month-1 row is the missing-value row. -/
theorem resample_monthly_rows_witness :
    ((resampleME [(((0:Nat), (5:Nat)), (1:ℚ)), (((2:Nat), (10:Nat)), (2:ℚ))]).map
        (fun r => r.1)
      = (List.range (lastMonth [(((0:Nat), (5:Nat)), (1:ℚ)), (((2:Nat), (10:Nat)), (2:ℚ))]
          - firstMonth [(((0:Nat), (5:Nat)), (1:ℚ)), (((2:Nat), (10:Nat)), (2:ℚ))] + 1)).map
        (fun j => firstMonth [(((0:Nat), (5:Nat)), (1:ℚ)), (((2:Nat), (10:Nat)), (2:ℚ))] + j)) ∧
    (none : Option ℚ)
      = lastInMonth [(((0:Nat), (5:Nat)), (1:ℚ)), (((2:Nat), (10:Nat)), (2:ℚ))] 1 :=
  ⟨(resample_monthly_rows.1 _ (by decide)).1,
   (resample_monthly_rows.1 _ (by decide)).2 (1, none) (by decide)⟩

/-- C1 counterexample: with NASDAQ and Yield Spread present at date 0 but
the S&P 500 column missing there, the merge step retains the row (with the
S&P value missing) — the code's completeness filter drops rows only on
NASDAQ and Yield Spread, so a row missing the claimed-required S&P 500
column survives. -/
theorem merge_filter_counterexample :
    load_all_data_combine [((0:Nat), some (1:ℚ))] [] [((0:Nat), some (2:ℚ))] [] [] none
      = [{ date := 0, nasdaqPct := some 1, sp500Pct := none, yieldSpread := some 2,
           goldPct := none, silverPct := none, recession := some 0 }] :=
  rfl

/-- C1 amended: every row of the combined table has the 'NASDAQ 6M %' and
'Yield Spread' columns present (a row missing either is dropped), while a
row missing only 'S&P 500 6M %', 'Gold 6M %', 'Silver 6M %' or 'Recession'
is retained with that column missing. -/
theorem merge_required_columns (n s y g si : Series) (rec : Option Series) :
    (∀ r ∈ load_all_data_combine n s y g si rec,
      r.nasdaqPct.isSome = true ∧ r.yieldSpread.isSome = true) ∧
    (∀ d, d ∈ unionDates n s y g si → (lookupDate n d).isSome = true →
      (lookupDate y d).isSome = true →
      { date := d, nasdaqPct := lookupDate n d, sp500Pct := lookupDate s d,
        yieldSpread := lookupDate y d, goldPct := lookupDate g d,
        silverPct := lookupDate si d,
        recession := match rec with
          | some r => lookupDate r d
          | none => some 0 : CombinedRow } ∈ load_all_data_combine n s y g si rec) := by
  constructor
  · intro r hr
    have h := List.of_mem_filter hr
    have h' := Bool.and_eq_true_iff.mp h
    exact ⟨h'.1, h'.2⟩
  · intro d hd h1 h2
    refine List.mem_filter.mpr ⟨List.mem_map.mpr ⟨d, hd, rfl⟩, ?_⟩
    simp only [h1, h2]
    rfl

/-- C1 amended, witness: at the concrete input of the counterexample, the
retained row (with S&P 500 missing) has NASDAQ and Yield Spread present,
and the row missing only the S&P column is a member of the output. -/
theorem merge_required_columns_witness :
    (({ date := 0, nasdaqPct := some 1, sp500Pct := none, yieldSpread := some 2,
        goldPct := none, silverPct := none, recession := some 0 } : CombinedRow).nasdaqPct.isSome
      = true ∧
     ({ date := 0, nasdaqPct := some 1, sp500Pct := none, yieldSpread := some 2,
        goldPct := none, silverPct := none, recession := some 0 } : CombinedRow).yieldSpread.isSome
      = true) ∧
    ({ date := 0, nasdaqPct := lookupDate [((0:Nat), some (1:ℚ))] 0,
       sp500Pct := lookupDate [] 0,
       yieldSpread := lookupDate [((0:Nat), some (2:ℚ))] 0,
       goldPct := lookupDate [] 0, silverPct := lookupDate [] 0,
       recession := some 0 : CombinedRow }
      ∈ load_all_data_combine [((0:Nat), some (1:ℚ))] [] [((0:Nat), some (2:ℚ))] [] [] none) :=
  ⟨(merge_required_columns [((0:Nat), some (1:ℚ))] [] [((0:Nat), some (2:ℚ))] [] [] none).1
      _ (by decide),
   (merge_required_columns [((0:Nat), some (1:ℚ))] [] [((0:Nat), some (2:ℚ))] [] [] none).2
      0 (by decide) (by decide) (by decide)⟩

/-- Helper: gap flags preserve length. -/
theorem gapFlagsFrom_length (tol : Nat) : ∀ (ds : List Nat) (prev : Nat),
    (gapFlagsFrom tol prev ds).length = ds.length := by
  intro ds
  induction ds with
  | nil => intro prev; rfl
  | cons d ds ih => intro prev; simp [gapFlagsFrom, ih d]

/-- Helper: cumulative sums preserve length. -/
theorem cumsumBools_length : ∀ (bs : List Bool) (acc : Nat),
    (cumsumBools acc bs).length = bs.length := by
  intro bs
  induction bs with
  | nil => intro acc; rfl
  | cons b bs ih => intro acc; simp [cumsumBools, ih]

/-- Helper: the run and the remainder reassemble the date list. -/
theorem takeRun_append (tol : Nat) : ∀ (ds : List Nat) (last : Nat),
    (takeRun tol last ds).1 ++ (takeRun tol last ds).2 = ds := by
  intro ds
  induction ds with
  | nil => intro last; rfl
  | cons d ds ih =>
    intro last
    rw [takeRun]
    by_cases h : tol < d - last
    · rw [if_pos h]
      rfl
    · rw [if_neg h]
      simp only [List.cons_append]
      rw [ih d]

/-- Helper: the remainder after a run is no longer than the input. -/
theorem takeRun_snd_length (tol : Nat) : ∀ (ds : List Nat) (last : Nat),
    (takeRun tol last ds).2.length ≤ ds.length := by
  intro ds
  induction ds with
  | nil => intro last; exact Nat.le_refl 0
  | cons d ds ih =>
    intro last
    rw [takeRun]
    by_cases h : tol < d - last
    · rw [if_pos h]
    · rw [if_neg h]
      exact Nat.le_succ_of_le (ih d)

/-- Helper: the scan emits the open interval closed at the end of the
current run, then restarts on the remainder. -/
theorem scanAux_eq (tol : Nat) : ∀ (ds : List Nat) (s last : Nat),
    scanAux tol s last ds =
      (s, ((takeRun tol last ds).1).getLastD last) ::
        scanIntervals tol (takeRun tol last ds).2 := by
  intro ds
  induction ds with
  | nil => intro s last; rfl
  | cons d ds ih =>
    intro s last
    rw [scanAux, takeRun]
    by_cases h : tol < d - last
    · rw [if_pos h, if_pos h]
      rfl
    · rw [if_neg h, if_neg h, ih s d]
      rw [List.getLastD_cons]

/-- Helper: the gap flags of a date list are `false` along the first run,
then `true` at the break, then the flags of the remainder. -/
theorem gapFlagsFrom_split (tol : Nat) : ∀ (ds : List Nat) (prev : Nat),
    gapFlagsFrom tol prev ds =
      List.replicate (takeRun tol prev ds).1.length false ++
        (match (takeRun tol prev ds).2 with
         | [] => []
         | e :: es => true :: gapFlagsFrom tol e es) := by
  intro ds
  induction ds with
  | nil => intro prev; rfl
  | cons d ds ih =>
    intro prev
    rw [gapFlagsFrom, takeRun]
    by_cases h : tol < d - prev
    · rw [if_pos h]
      simp [h]
    · rw [if_neg h]
      simp only [List.length_cons, List.replicate_succ, List.cons_append]
      rw [ih d]
      have hd : (decide (tol < d - prev)) = false := by simp [h]
      rw [hd]

/-- Helper: cumulative sum over a false prefix repeats the accumulator. -/
theorem cumsumBools_replicate_false : ∀ (n : Nat) (acc : Nat) (rest : List Bool),
    cumsumBools acc (List.replicate n false ++ rest) =
      List.replicate n acc ++ cumsumBools acc rest := by
  intro n
  induction n with
  | zero => intro acc rest; rfl
  | succ n ih =>
    intro acc rest
    rw [List.replicate_succ, List.cons_append, cumsumBools]
    simp only [Bool.false_eq_true, if_false]
    rw [ih acc rest, List.replicate_succ]
    rfl

/-- Helper: shifting the accumulator shifts every cumulative sum. -/
theorem cumsumBools_shift : ∀ (bs : List Bool) (a c : Nat),
    cumsumBools (a + c) bs = (cumsumBools a bs).map (fun x => x + c) := by
  intro bs
  induction bs with
  | nil => intro a c; rfl
  | cons b bs ih =>
    intro a c
    cases b with
    | true =>
      rw [cumsumBools, cumsumBools]
      simp only [if_true, List.map_cons]
      rw [Nat.add_right_comm a c 1, ih (a + 1) c]
    | false =>
      rw [cumsumBools, cumsumBools]
      simp only [Bool.false_eq_true, if_false, List.map_cons]
      rw [ih a c]

/-- Helper: cumulative sums never drop below the accumulator. -/
theorem cumsumBools_all_ge : ∀ (bs : List Bool) (acc x : Nat),
    x ∈ cumsumBools acc bs → acc ≤ x := by
  intro bs
  induction bs with
  | nil => intro acc x hx; cases hx
  | cons b bs ih =>
    intro acc x hx
    rw [cumsumBools] at hx
    rcases List.mem_cons.mp hx with rfl | hx'
    · cases b <;> simp
    · have h1 := ih _ x hx'
      cases b with
      | true => exact le_trans (Nat.le_succ acc) h1
      | false => exact h1

/-- Helper: `uniqueInOrder` only returns members. -/
theorem uniqueInOrder_mem : ∀ (n : Nat) (l : List Nat), l.length ≤ n →
    ∀ x, x ∈ uniqueInOrder l → x ∈ l := by
  intro n
  induction n with
  | zero =>
    intro l h x hx
    have : l = [] := List.eq_nil_of_length_eq_zero (Nat.le_zero.mp h)
    subst this
    rw [uniqueInOrder] at hx
    cases hx
  | succ n ih =>
    intro l h x hx
    cases l with
    | nil => rw [uniqueInOrder] at hx; cases hx
    | cons a as =>
      rw [uniqueInOrder] at hx
      rcases List.mem_cons.mp hx with rfl | hx'
      · exact List.mem_cons_self _ _
      · have hlen : (as.filter (fun y => y != a)).length ≤ n :=
          le_trans (List.length_filter_le _ _) (Nat.le_of_succ_le_succ h)
        exact List.mem_cons_of_mem a
          (List.mem_of_mem_filter (ih _ hlen x hx'))

/-- Helper: `uniqueInOrder` over a constant prefix keeps one copy. -/
theorem uniqueInOrder_replicate_append (n : Nat) (g : Nat) (rest : List Nat) :
    uniqueInOrder (List.replicate (n + 1) g ++ rest) =
      g :: uniqueInOrder (rest.filter (fun y => y != g)) := by
  rw [List.replicate_succ, List.cons_append, uniqueInOrder, List.filter_append,
    List.filter_replicate]
  simp only [bne_self_eq_false, Bool.false_eq_true, if_false, List.nil_append]

/-- Helper: adding a constant to keys commutes with `==`. -/
theorem beq_add_right (y x c : Nat) : ((y + c == x + c) : Bool) = (y == x) := by
  by_cases h : y = x
  · subst h; simp
  · have h2 : y + c ≠ x + c := fun hc => h (by omega)
    simp [h, h2]

/-- Helper: `uniqueInOrder` commutes with shifting all entries. -/
theorem uniqueInOrder_map_add (c : Nat) : ∀ (n : Nat) (l : List Nat), l.length ≤ n →
    uniqueInOrder (l.map (fun x => x + c)) = (uniqueInOrder l).map (fun x => x + c) := by
  intro n
  induction n with
  | zero =>
    intro l h
    have : l = [] := List.eq_nil_of_length_eq_zero (Nat.le_zero.mp h)
    subst this
    simp [uniqueInOrder]
  | succ n ih =>
    intro l h
    cases l with
    | nil => simp [uniqueInOrder]
    | cons a as =>
      rw [List.map_cons, uniqueInOrder, uniqueInOrder, List.map_cons]
      congr 1
      rw [List.filter_map]
      have hcong : (as.filter ((fun y => y != a + c) ∘ fun x => x + c))
          = as.filter (fun y => y != a) := by
        apply List.filter_congr
        intro y _
        simp only [Function.comp]
        rw [show ((y + c != a + c) : Bool) = (y != a) by
          simp only [bne]; rw [beq_add_right]]
      rw [hcong]
      exact ih _ (le_trans (List.length_filter_le _ _) (Nat.le_of_succ_le_succ h))

/-- Helper: grouping splits at the boundary between a constant-id prefix
and a strictly-larger-id remainder. -/
theorem groupBounds_split (p1 p2 : List (Nat × Nat)) (g : Nat)
    (hne : p1 ≠ []) (h1 : ∀ q ∈ p1, q.2 = g) (h2 : ∀ q ∈ p2, g < q.2) :
    groupBounds (p1 ++ p2) =
      ((p1.map (fun p => p.1)).headD 0, (p1.map (fun p => p.1)).getLastD 0) ::
        groupBounds p2 := by
  have hids1 : p1.map (fun p => p.2) = List.replicate p1.length g := by
    have := List.eq_replicate_of_mem (l := p1.map (fun p => p.2)) (a := g) ?_
    · simpa using this
    · intro b hb
      rcases List.mem_map.mp hb with ⟨q, hq, rfl⟩
      exact h1 q hq
  obtain ⟨k, hk⟩ : ∃ k, p1.length = k + 1 := by
    cases p1 with
    | nil => exact absurd rfl hne
    | cons a as => exact ⟨as.length, rfl⟩
  have hne2 : ∀ y ∈ p2.map (fun p => p.2), (y != g) = true := by
    intro y hy
    rcases List.mem_map.mp hy with ⟨q, hq, rfl⟩
    have := h2 q hq
    simp only [bne_iff_ne, ne_eq]
    omega
  have huniq : uniqueInOrder ((p1 ++ p2).map (fun p => p.2))
      = g :: uniqueInOrder (p2.map (fun p => p.2)) := by
    rw [List.map_append, hids1, hk, uniqueInOrder_replicate_append,
      List.filter_eq_self.mpr hne2]
  rw [groupBounds, huniq, List.map_cons]
  have hfilter_g : (p1 ++ p2).filter (fun p => p.2 == g) = p1 := by
    rw [List.filter_append]
    rw [List.filter_eq_self.mpr (fun q hq => by simp [h1 q hq]),
      List.filter_eq_nil.mpr (fun q hq => by
        have := h2 q hq
        simp only [beq_iff_eq]
        omega)]
    exact List.append_nil p1
  rw [hfilter_g]
  congr 1
  rw [groupBounds]
  apply List.map_congr_left
  intro h0 hh0
  have hmem : h0 ∈ p2.map (fun p => p.2) :=
    uniqueInOrder_mem _ _ (Nat.le_refl _) h0 hh0
  have hne0 : g ≠ h0 := by
    rcases List.mem_map.mp hmem with ⟨q, hq, rfl⟩
    have := h2 q hq
    omega
  have hfilter_h : (p1 ++ p2).filter (fun p => p.2 == h0) = p2.filter (fun p => p.2 == h0) := by
    rw [List.filter_append, List.filter_eq_nil.mpr (fun q hq => by
      have := h1 q hq
      simp only [beq_iff_eq]
      omega)]
    exact List.nil_append _
  rw [hfilter_h]

/-- Helper: grouping is invariant under shifting every group id. -/
theorem groupBounds_shift (pairs : List (Nat × Nat)) (c : Nat) :
    groupBounds (pairs.map (fun q => (q.1, q.2 + c))) = groupBounds pairs := by
  have hids : (pairs.map (fun q => (q.1, q.2 + c))).map (fun p => p.2)
      = (pairs.map (fun p => p.2)).map (fun x => x + c) := by
    rw [List.map_map, List.map_map]
    rfl
  rw [groupBounds, groupBounds, hids,
    uniqueInOrder_map_add c (pairs.map (fun p => p.2)).length _ (Nat.le_refl _),
    List.map_map]
  apply List.map_congr_left
  intro g0 _
  have hfil : (pairs.map (fun q => (q.1, q.2 + c))).filter (fun p => p.2 == g0 + c)
      = (pairs.filter (fun p => p.2 == g0)).map (fun q => (q.1, q.2 + c)) := by
    rw [List.filter_map]
    congr 1
    apply List.filter_congr
    intro q _
    simp only [Function.comp]
    exact beq_add_right q.2 g0 c
  simp only [Function.comp]
  rw [hfil, List.map_map]
  rfl

/-- Helper: cumulative sum over an all-false list repeats the accumulator. -/
theorem cumsumBools_replicate (n acc : Nat) :
    cumsumBools acc (List.replicate n false) = List.replicate n acc := by
  have h := cumsumBools_replicate_false n acc []
  simpa [show cumsumBools acc ([] : List Bool) = [] from rfl] using h

/-- Helper: when the whole list is one run, all gap flags are false. -/
theorem gapFlagsFrom_split_nil (tol : Nat) (ds : List Nat) (prev : Nat)
    (h : (takeRun tol prev ds).2 = []) :
    gapFlagsFrom tol prev ds = List.replicate (takeRun tol prev ds).1.length false := by
  have hs := gapFlagsFrom_split tol ds prev
  rw [h] at hs
  simpa using hs

/-- Helper: when the run breaks, the flags are the false run, one true, and
the flags of the remainder. -/
theorem gapFlagsFrom_split_cons (tol : Nat) (ds : List Nat) (prev e : Nat) (es : List Nat)
    (h : (takeRun tol prev ds).2 = e :: es) :
    gapFlagsFrom tol prev ds =
      List.replicate (takeRun tol prev ds).1.length false ++
        (true :: gapFlagsFrom tol e es) := by
  have hs := gapFlagsFrom_split tol ds prev
  rw [h] at hs
  exact hs

/-- Helper: the cumulative-sum grouping of the source equals the
gap-splitting scan of the specification. -/
theorem extractPeriods_eq_scanIntervals (tol : Nat) :
    ∀ dates : List Nat, extractPeriods tol dates = scanIntervals tol dates := by
  have main : ∀ (n : Nat) (dates : List Nat), dates.length ≤ n →
      extractPeriods tol dates = scanIntervals tol dates := by
    intro n
    induction n with
    | zero =>
      intro dates h
      have : dates = [] := List.eq_nil_of_length_eq_zero (Nat.le_zero.mp h)
      subst this
      rfl
    | succ n ih =>
      intro dates h
      cases dates with
      | nil => rfl
      | cons d ds =>
        have hds : ds.length ≤ n := Nat.le_of_succ_le_succ h
        cases hrest : (takeRun tol d ds).2 with
        | nil =>
          have hsplit : (takeRun tol d ds).1 ++ (takeRun tol d ds).2 = ds :=
            takeRun_append tol ds d
          rw [hrest, List.append_nil] at hsplit
          rw [extractPeriods, gapFlagsFrom_split_nil tol ds d hrest, cumsumBools_replicate]
          rw [scanIntervals, scanAux_eq tol ds d d, hrest]
          rw [show scanIntervals tol ([] : List Nat) = [] from rfl]
          have hcons : ((0 : Nat) :: List.replicate (takeRun tol d ds).1.length 0)
              = List.replicate ((takeRun tol d ds).1.length + 1) 0 := by
            rw [List.replicate_succ]
          rw [hcons]
          have hall : ∀ q ∈ (d :: ds).zip (List.replicate ((takeRun tol d ds).1.length + 1) 0),
              q.2 = 0 := by
            intro q hq
            have hq' : (q.1, q.2) ∈ (d :: ds).zip
                (List.replicate ((takeRun tol d ds).1.length + 1) 0) := by
              rw [Prod.mk.eta]
              exact hq
            exact List.eq_of_mem_replicate (List.of_mem_zip hq').2
          have hzne : (d :: ds).zip (List.replicate ((takeRun tol d ds).1.length + 1) 0) ≠ [] := by
            intro hcon
            have := congrArg List.length hcon
            simp only [List.length_zip, List.length_cons, List.length_replicate,
              List.length_nil] at this
            omega
          have hgb := groupBounds_split
            ((d :: ds).zip (List.replicate ((takeRun tol d ds).1.length + 1) 0)) [] 0
            hzne hall (by intro q hq; cases hq)
          rw [List.append_nil] at hgb
          rw [hgb]
          have hmapfst : ((d :: ds).zip
              (List.replicate ((takeRun tol d ds).1.length + 1) 0)).map (fun p => p.1)
              = d :: ds := by
            have := List.map_fst_zip (d :: ds)
              (List.replicate ((takeRun tol d ds).1.length + 1) 0)
              (by simp only [List.length_cons, List.length_replicate]
                  rw [hsplit])
            simpa using this
          rw [hmapfst, hsplit]
          rw [show ((d :: ds).headD 0) = d from rfl]
          rw [List.getLastD_cons 0 d ds]
          simp [groupBounds, uniqueInOrder]
        | cons e es =>
          have hsplit : (takeRun tol d ds).1 ++ (takeRun tol d ds).2 = ds :=
            takeRun_append tol ds d
          rw [hrest] at hsplit
          have hrestlen : (e :: es).length ≤ n := by
            rw [← hrest]
            exact le_trans (takeRun_snd_length tol ds d) hds
          rw [extractPeriods, gapFlagsFrom_split_cons tol ds d e es hrest,
            cumsumBools_replicate_false]
          rw [scanIntervals, scanAux_eq tol ds d d, hrest]
          have hM : cumsumBools 0 (true :: gapFlagsFrom tol e es)
              = (0 :: cumsumBools 0 (gapFlagsFrom tol e es)).map (fun x => x + 1) := by
            rw [cumsumBools]
            simp only [if_true, List.map_cons, Nat.zero_add]
            rw [show (1 : Nat) = 0 + 1 from rfl, cumsumBools_shift]
          rw [hM]
          have hdates : d :: ds = (d :: (takeRun tol d ds).1) ++ (e :: es) := by
            rw [List.cons_append, hsplit]
          rw [hdates]
          rw [show ((0 : Nat) :: (List.replicate (takeRun tol d ds).1.length 0 ++
              ((0 :: cumsumBools 0 (gapFlagsFrom tol e es)).map (fun x => x + 1))))
              = (((0 : Nat) :: List.replicate (takeRun tol d ds).1.length 0) ++
                ((0 :: cumsumBools 0 (gapFlagsFrom tol e es)).map (fun x => x + 1)))
            from List.cons_append 0 _ _]
          rw [List.zip_append (by simp)]
          have hcons : ((0 : Nat) :: List.replicate (takeRun tol d ds).1.length 0)
              = List.replicate ((takeRun tol d ds).1.length + 1) 0 := by
            rw [List.replicate_succ]
          rw [hcons]
          have hall : ∀ q ∈ (d :: (takeRun tol d ds).1).zip
              (List.replicate ((takeRun tol d ds).1.length + 1) 0), q.2 = 0 := by
            intro q hq
            have hq' : (q.1, q.2) ∈ (d :: (takeRun tol d ds).1).zip
                (List.replicate ((takeRun tol d ds).1.length + 1) 0) := by
              rw [Prod.mk.eta]
              exact hq
            exact List.eq_of_mem_replicate (List.of_mem_zip hq').2
          have hzne : (d :: (takeRun tol d ds).1).zip
              (List.replicate ((takeRun tol d ds).1.length + 1) 0) ≠ [] := by
            intro hcon
            have := congrArg List.length hcon
            simp only [List.length_zip, List.length_cons, List.length_replicate,
              List.length_nil] at this
            omega
          have hpos : ∀ q ∈ (e :: es).zip
              ((0 :: cumsumBools 0 (gapFlagsFrom tol e es)).map (fun x => x + 1)),
              0 < q.2 := by
            intro q hq
            have hq' : (q.1, q.2) ∈ (e :: es).zip
                ((0 :: cumsumBools 0 (gapFlagsFrom tol e es)).map (fun x => x + 1)) := by
              rw [Prod.mk.eta]
              exact hq
            have hmem := (List.of_mem_zip hq').2
            rcases List.mem_map.mp hmem with ⟨x, _, hx⟩
            omega
          rw [groupBounds_split _ _ 0 hzne hall hpos]
          have hmapfst : ((d :: (takeRun tol d ds).1).zip
              (List.replicate ((takeRun tol d ds).1.length + 1) 0)).map (fun p => p.1)
              = d :: (takeRun tol d ds).1 := by
            have := List.map_fst_zip (d :: (takeRun tol d ds).1)
              (List.replicate ((takeRun tol d ds).1.length + 1) 0)
              (by simp)
            simpa using this
          rw [hmapfst]
          have hshift : (e :: es).zip
              ((0 :: cumsumBools 0 (gapFlagsFrom tol e es)).map (fun x => x + 1))
              = ((e :: es).zip (0 :: cumsumBools 0 (gapFlagsFrom tol e es))).map
                (fun q => (q.1, q.2 + 1)) := by
            rw [List.zip_map_right]
            rfl
          rw [hshift, groupBounds_shift]
          have hrec : groupBounds ((e :: es).zip
              (0 :: cumsumBools 0 (gapFlagsFrom tol e es)))
              = scanIntervals tol (e :: es) := by
            have hih := ih (e :: es) hrestlen
            rw [extractPeriods] at hih
            exact hih
          rw [hrec]
          rw [show ((d :: (takeRun tol d ds).1).headD 0) = d from rfl]
          rw [List.getLastD_cons 0 d ((takeRun tol d ds).1)]
  intro dates
  exact main dates.length dates (Nat.le_refl _)

/-- C6: interval extraction.  The cumulative-sum grouping used by
`get_recession_periods` and `get_inversion_periods` equals the scan that
selects the dates satisfying the predicate (recession value 1, or spread
strictly negative), starts a new interval exactly when the gap from the
previous selected date strictly exceeds the 45-day tolerance, and spans
each interval from the first to the last date of its group; no selected
date yields the empty sequence; and selected dates with consecutive gaps
of 10 and 60 days yield exactly the intervals [d1, d1+10] and
[d1+70, d1+70]. -/
theorem interval_extraction_correct :
    (∀ tol dates, extractPeriods tol dates = scanIntervals tol dates) ∧
    (∀ (hasRec : Bool) df, get_recession_periods hasRec df =
      if hasRec then scanIntervals 45 (selectDates (fun v => v == some 1) df) else []) ∧
    (∀ df, get_inversion_periods df =
      scanIntervals 45 (selectDates
        (fun v => match v with | some x => decide (x < 0) | none => false) df)) ∧
    (∀ df, selectDates (fun v => v == some 1) df = [] →
      get_recession_periods true df = []) ∧
    (∀ d1 : Nat, get_recession_periods true
        [(d1, some 1), (d1 + 10, some 1), (d1 + 70, some 1)]
      = [(d1, d1 + 10), (d1 + 70, d1 + 70)]) := by
  refine ⟨extractPeriods_eq_scanIntervals, ?_, ?_, ?_, ?_⟩
  · intro hasRec df
    cases hasRec with
    | true => simp [get_recession_periods, extractPeriods_eq_scanIntervals]
    | false => rfl
  · intro df
    rw [get_inversion_periods, extractPeriods_eq_scanIntervals]
  · intro df hsel
    simp [get_recession_periods, hsel, extractPeriods_eq_scanIntervals]
    rfl
  · intro d1
    have hsel : selectDates (fun v => v == some 1)
        [(d1, some (1:ℚ)), (d1 + 10, some 1), (d1 + 70, some 1)]
        = [d1, d1 + 10, d1 + 70] := rfl
    have h10 : d1 + 10 - d1 = 10 := by omega
    have h60 : d1 + 70 - (d1 + 10) = 60 := by omega
    simp only [get_recession_periods, if_true, hsel, extractPeriods_eq_scanIntervals,
      scanIntervals, scanAux, h10, h60]
    norm_num

/-- C6 witness: on a one-row frame whose recession value is 0, no date is
selected and the period list is empty. -/
theorem interval_extraction_correct_witness :
    get_recession_periods true [((5:Nat), some (0:ℚ))] = [] :=
  interval_extraction_correct.2.2.2.1 [((5:Nat), some (0:ℚ))] rfl

end YieldCurve
